import Mathlib

/-!
Verification of the carthorse GraphSAGE training pipeline
(src/scripts/graphsage/*.py) against its natural-language specification.

Shallow embedding conventions:
* tensors of per-node values are Lean lists; probability values are ℚ
  (the float arithmetic of softmax is not re-derived: the gate operates on
  whatever probability row the library produced, which is how the spec
  states the property as well);
* a Python float that may be NaN/Inf is `Option ℚ` (`none` = non-finite);
* file paths and file contents are abstracted to ℕ / List ℤ tokens so the
  development stays fully computable;
* exceptions are `Except`.
-/

namespace Carthorse

/-! ### Confidence gate
Embeds `evaluate_model_high_confidence`
(train_graphsage_high_confidence.py, lines 180-186):
  probabilities = F.softmax(out, dim=1)
  max_probs, predictions = torch.max(probabilities, dim=1)
  confident_mask = max_probs >= confidence_threshold
  final_predictions = torch.where(confident_mask, predictions, zeros)
-/

/-- `torch.max(row)` for one probability row: the maximum value together with
the index of its first occurrence (PyTorch returns the first maximal index). -/
def rowMax : List ℚ → ℚ × ℕ
  | [] => (0, 0)
  | [p] => (p, 0)
  | p :: q :: rest =>
    let r := rowMax (q :: rest)
    if r.1 > p then (r.1, r.2 + 1) else (p, 0)

/-- Per-node confidence gate: argmax class when the max probability reaches
the threshold, otherwise class 0 ("keep as-is"). -/
def gatePrediction (threshold : ℚ) (probs : List ℚ) : ℕ :=
  if threshold ≤ (rowMax probs).1 then (rowMax probs).2 else 0

/-- `final_predictions` over all nodes. -/
def final_predictions (threshold : ℚ) (probRows : List (List ℚ)) : List ℕ :=
  probRows.map (gatePrediction threshold)

/-- Default of `--confidence-threshold` (train_graphsage_high_confidence.py
line 243). -/
def defaultConfidenceThreshold : ℚ := 8 / 10

/-! ### Degree-based label generation
Embeds the label loop of `PostGISGraphLoader.load_graph_data`
(train_graphsage_direct.py, lines 112-124). -/

/-- Label of a single node from its degree:
`if degree == 2: 1 elif degree >= 4: 2 else: 0`. -/
def nodeLabel (degree : ℕ) : ℕ :=
  if degree = 2 then 1
  else if 4 ≤ degree then 2
  else 0

/-- The `node_labels` list built by iterating `nodeLabel` over the per-node
degrees (row[4] of the node query). -/
def generateNodeLabels (degrees : List ℕ) : List ℕ :=
  degrees.map nodeLabel

/-! ### Edge-index validation of the flat loader
Embeds `load_graphsage_data` (train_graphsage_improved.py, lines 37-56;
identical in train_graphsage_high_confidence.py):
  if max_edge_index >= num_nodes or min_edge_index < 0:
      valid_edges = (e[0] < n) & (e[1] < n) & (e[0] >= 0) & (e[1] >= 0)
      edge_index = edge_index[:, valid_edges]
      print removed = valid_edges.sum().item() - edge_index.size(1)
  edge_index = torch.clamp(edge_index, 0, num_nodes - 1)
An edge is one column of the 2×E tensor, modelled as a pair of ℤ. -/

/-- One entry of the boolean mask `valid_edges` for a single edge column. -/
def validEdge (num_nodes : ℤ) (e : ℤ × ℤ) : Bool :=
  decide (e.1 < num_nodes) && decide (e.2 < num_nodes) &&
  decide (0 ≤ e.1) && decide (0 ≤ e.2)

/-- The guard `max_edge_index >= num_nodes or min_edge_index < 0`: some entry
of the edge tensor is out of range, i.e. some edge column is invalid. -/
def hasInvalidEdgeIndex (num_nodes : ℤ) (edges : List (ℤ × ℤ)) : Bool :=
  edges.any (fun e => !(validEdge num_nodes e))

/-- `torch.clamp(x, 0, num_nodes - 1)` on one index entry. -/
def clampIdx (num_nodes : ℤ) (x : ℤ) : ℤ :=
  min (max x 0) (num_nodes - 1)

/-- The edge validation step of `load_graphsage_data`: returns the resulting
`edge_index` (as a list of columns) and, when the filtering branch ran, the
removed-edge count that the script reports (`some r`); `none` when the branch
was skipped and nothing was reported. The reported count is written exactly
as the source computes it: `valid_edges.sum()` (the count of true mask
entries) minus `edge_index.size(1)` taken after `edge_index` was already
reassigned to the filtered tensor. -/
def filterEdgeIndex (num_nodes : ℤ) (edges : List (ℤ × ℤ)) :
    List (ℤ × ℤ) × Option ℤ :=
  if hasInvalidEdgeIndex num_nodes edges then
    let kept := edges.filter (validEdge num_nodes)
    let validMaskSum : ℤ := edges.countP (validEdge num_nodes)
    let reportedRemoved : ℤ := validMaskSum - kept.length
    (kept.map (fun e => (clampIdx num_nodes e.1, clampIdx num_nodes e.2)),
      some reportedRemoved)
  else
    (edges.map (fun e => (clampIdx num_nodes e.1, clampIdx num_nodes e.2)),
      none)

/-- The C2 end-to-end fixture: a 10-node graph whose edge list holds nine
in-range edges and the single invalid edge (0, 999). -/
def c2Edges : List (ℤ × ℤ) :=
  [(0,1), (1,2), (2,3), (3,4), (4,5), (5,6), (6,7), (7,8), (8,9), (0,999)]

/-! ### Theorems for C1 and C3 -/

/-- C1: for every probability row, when the maximum class probability is
below the threshold τ the gated prediction is the keep class 0, and when the
maximum probability is at least τ the gated prediction is the argmax class
(first index attaining the maximum). -/
theorem confidence_gate_overrides_low_confidence (probs : List ℚ) (threshold : ℚ) :
    ((rowMax probs).1 < threshold → gatePrediction threshold probs = 0) ∧
    (threshold ≤ (rowMax probs).1 → gatePrediction threshold probs = (rowMax probs).2) := by
  constructor
  · intro h
    unfold gatePrediction
    rw [if_neg (not_le.mpr h)]
  · intro h
    unfold gatePrediction
    rw [if_pos h]

/-- C1 witness: with the default threshold 0.8, the row [0.3, 0.7] (argmax
class 1, confidence 0.7 < 0.8) is gated to 0, while the row [0.1, 0.9]
(confidence 0.9 ≥ 0.8) keeps its argmax class 1. -/
theorem confidence_gate_overrides_low_confidence_witness :
    gatePrediction defaultConfidenceThreshold [3/10, 7/10] = 0 ∧
    gatePrediction defaultConfidenceThreshold [1/10, 9/10] = 1 := by
  constructor
  · exact (confidence_gate_overrides_low_confidence [3/10, 7/10] defaultConfidenceThreshold).1
      (by norm_num [rowMax, defaultConfidenceThreshold])
  · have h := (confidence_gate_overrides_low_confidence [1/10, 9/10] defaultConfidenceThreshold).2
      (by norm_num [rowMax, defaultConfidenceThreshold])
    rw [h]
    norm_num [rowMax]

/-- C3: the fallback label of every node is the pure function of its degree
given by the spec cases (degree 2 ↦ merge class 1; degree ≥ 4 ↦ split
class 2; anything else ↦ keep class 0), and deriving the labels twice from
equal degree vectors yields identical label vectors. -/
theorem labels_pure_function_of_degree (degrees₁ degrees₂ : List ℕ)
    (h : degrees₁ = degrees₂) :
    generateNodeLabels degrees₁ = generateNodeLabels degrees₂ ∧
    ∀ d ∈ degrees₁,
      (d = 2 ∧ nodeLabel d = 1) ∨
      (4 ≤ d ∧ nodeLabel d = 2) ∨
      (d ≠ 2 ∧ d < 4 ∧ nodeLabel d = 0) := by
  subst h
  refine ⟨rfl, ?_⟩
  intro d _
  unfold nodeLabel
  by_cases h2 : d = 2
  · left
    exact ⟨h2, by simp [h2]⟩
  · by_cases h4 : 4 ≤ d
    · right; left
      exact ⟨h4, by simp [h2, h4]⟩
    · right; right
      exact ⟨h2, by omega, by simp [h2, h4]⟩

/-- C3 witness: on the fixture degree vector {1,2,2,3,4,5} the derivation is
deterministic, every degree falls in its spec case, and the label vector is
[0,1,1,0,2,2]. -/
theorem labels_pure_function_of_degree_witness :
    (generateNodeLabels [1,2,2,3,4,5] = generateNodeLabels [1,2,2,3,4,5] ∧
      ∀ d ∈ [1,2,2,3,4,5],
        (d = 2 ∧ nodeLabel d = 1) ∨
        (4 ≤ d ∧ nodeLabel d = 2) ∨
        (d ≠ 2 ∧ d < 4 ∧ nodeLabel d = 0)) ∧
    generateNodeLabels [1,2,2,3,4,5] = [0,1,1,0,2,2] :=
  ⟨labels_pure_function_of_degree [1,2,2,3,4,5] [1,2,2,3,4,5] rfl, by decide⟩

/-- Helper: a valid index entry is unchanged by the clamp. -/
lemma clampIdx_of_valid {num_nodes x : ℤ} (h0 : 0 ≤ x) (hn : x < num_nodes) :
    clampIdx num_nodes x = x := by
  unfold clampIdx
  rw [max_eq_left h0]
  exact min_eq_left (by omega)

/-- Helper: on an all-valid edge list the validation step is the identity and
reports nothing. -/
lemma filterEdgeIndex_of_all_valid {num_nodes : ℤ} {edges : List (ℤ × ℤ)}
    (h : ∀ e ∈ edges, validEdge num_nodes e = true) :
    filterEdgeIndex num_nodes edges = (edges, none) := by
  have hguard : hasInvalidEdgeIndex num_nodes edges = false := by
    unfold hasInvalidEdgeIndex
    rw [List.any_eq_false]
    intro e he
    rw [h e he]
    simp
  unfold filterEdgeIndex
  rw [hguard]
  simp only [Bool.false_eq_true, if_false, Prod.mk.injEq, and_true]
  have hmap : ∀ e ∈ edges,
      (fun e : ℤ × ℤ => (clampIdx num_nodes e.1, clampIdx num_nodes e.2)) e = id e := by
    intro e he
    have hv := h e he
    unfold validEdge at hv
    simp only [Bool.and_eq_true, decide_eq_true_eq] at hv
    obtain ⟨⟨⟨hlt1, hlt2⟩, hge1⟩, hge2⟩ := hv
    simp only [id_eq]
    rw [clampIdx_of_valid hge1 hlt1, clampIdx_of_valid hge2 hlt2]
  rw [List.map_congr_left hmap, List.map_id]

/-- C2 (code bug evaluation): on the 10-node fixture graph whose edge list
contains the single invalid edge (0, 999), the loader does drop exactly that
edge and keeps the nine valid edges unchanged, but the removed-edge count it
reports is 0, not the claimed 1: the script subtracts the post-filter column
count from the count of true mask entries, which are always equal. -/
theorem flat_loader_reports_zero_removed_edges :
    filterEdgeIndex 10 c2Edges =
      ([(0,1), (1,2), (2,3), (3,4), (4,5), (5,6), (6,7), (7,8), (8,9)], some 0) ∧
    (0 : ℤ) ≠ 1 := by
  constructor
  · decide
  · decide

/-- C7: when every index of the edge list already satisfies
0 ≤ index < num_nodes, the validation step returns the edge list unchanged,
and hence filtering an already-valid edge list a second time yields the same
edge list (idempotence). -/
theorem edge_filtering_idempotent (num_nodes : ℤ) (edges : List (ℤ × ℤ))
    (h : ∀ e ∈ edges, validEdge num_nodes e = true) :
    (filterEdgeIndex num_nodes edges).1 = edges ∧
    (filterEdgeIndex num_nodes (filterEdgeIndex num_nodes edges).1).1 =
      (filterEdgeIndex num_nodes edges).1 := by
  have h1 : filterEdgeIndex num_nodes edges = (edges, none) :=
    filterEdgeIndex_of_all_valid h
  refine ⟨by rw [h1], ?_⟩
  rw [h1]
  show (filterEdgeIndex num_nodes edges).1 = edges
  rw [h1]

/-- C7 witness: the already-valid edge list [(0,1), (1,2)] on a 10-node graph
passes through unchanged, and a second filtering pass is a no-op. -/
theorem edge_filtering_idempotent_witness :
    (filterEdgeIndex 10 [(0,1), (1,2)]).1 = [(0,1), (1,2)] ∧
    (filterEdgeIndex 10 (filterEdgeIndex 10 [(0,1), (1,2)]).1).1 =
      (filterEdgeIndex 10 [(0,1), (1,2)]).1 :=
  edge_filtering_idempotent 10 [(0,1), (1,2)] (by decide)

/-! ### Partitioner
Embeds the mask generation of `PostGISGraphLoader.load_graph_data`
(train_graphsage_direct.py, lines 126-141):
  indices = shuffled permutation of range(num_nodes)
  train_end = int(num_nodes * 0.7)
  val_end = train_end + int(num_nodes * 0.15)
  train <- indices[:train_end]; val <- indices[train_end:val_end];
  test <- indices[val_end:]
`int(n * 0.7)` and `int(n * 0.15)` are floor(0.7 n) and floor(0.15 n),
written here as Nat division (7 * n / 10 and 15 * n / 100). The boolean
masks are represented by the index slices that are set to true. -/

/-- The three index slices (train, val, test) cut from the shuffled
permutation `indices`. -/
def partitionMasks (indices : List ℕ) : List ℕ × List ℕ × List ℕ :=
  let num_nodes := indices.length
  let train_end := 7 * num_nodes / 10
  let val_len := 15 * num_nodes / 100
  (indices.take train_end,
   (indices.drop train_end).take val_len,
   indices.drop (train_end + val_len))

/-- C4: for any shuffled permutation of the node indices 0..n-1, the three
partition slices concatenate back to the whole permutation, jointly cover
every node exactly once, are pairwise disjoint, and their sizes sum to n. -/
theorem partition_masks_disjoint_cover (n : ℕ) (indices : List ℕ)
    (h : List.Perm indices (List.range n)) :
    ((partitionMasks indices).1 ++ (partitionMasks indices).2.1 ++
        (partitionMasks indices).2.2 = indices) ∧
    List.Perm ((partitionMasks indices).1 ++ (partitionMasks indices).2.1 ++
        (partitionMasks indices).2.2) (List.range n) ∧
    ((partitionMasks indices).1.Disjoint (partitionMasks indices).2.1 ∧
     (partitionMasks indices).1.Disjoint (partitionMasks indices).2.2 ∧
     (partitionMasks indices).2.1.Disjoint (partitionMasks indices).2.2) ∧
    (partitionMasks indices).1.length + (partitionMasks indices).2.1.length +
        (partitionMasks indices).2.2.length = n := by
  have hconcat : (partitionMasks indices).1 ++ (partitionMasks indices).2.1 ++
      (partitionMasks indices).2.2 = indices := by
    unfold partitionMasks
    simp only
    rw [List.append_assoc]
    have hdd : indices.drop (7 * indices.length / 10 + 15 * indices.length / 100) =
        (indices.drop (7 * indices.length / 10)).drop (15 * indices.length / 100) := by
      rw [List.drop_drop]
    rw [hdd, List.take_append_drop, List.take_append_drop]
  have hperm : List.Perm ((partitionMasks indices).1 ++ (partitionMasks indices).2.1 ++
      (partitionMasks indices).2.2) (List.range n) := by
    rw [hconcat]; exact h
  have hnodup : ((partitionMasks indices).1 ++ (partitionMasks indices).2.1 ++
      (partitionMasks indices).2.2).Nodup :=
    hperm.nodup_iff.mpr (List.nodup_range n)
  rw [List.append_assoc, List.nodup_append] at hnodup
  obtain ⟨_, hnodup2, hdisj1⟩ := hnodup
  rw [List.nodup_append] at hnodup2
  obtain ⟨_, _, hdisj23⟩ := hnodup2
  refine ⟨hconcat, hperm, ⟨?_, ?_, hdisj23⟩, ?_⟩
  · intro a ha hb
    exact hdisj1 ha (List.mem_append_left _ hb)
  · intro a ha hb
    exact hdisj1 ha (List.mem_append_right _ hb)
  · have hlen := congrArg List.length hconcat
    simp only [List.length_append] at hlen
    have hn : indices.length = n := h.length_eq.trans (List.length_range n)
    omega

/-- C4 witness: the permutation [2, 0, 1] of a 3-node graph (train slice of
size floor(2.1) = 2, val slice of size floor(0.45) = 0, remainder to test)
satisfies the partition invariants. -/
theorem partition_masks_disjoint_cover_witness :
    ((partitionMasks [2,0,1]).1 ++ (partitionMasks [2,0,1]).2.1 ++
        (partitionMasks [2,0,1]).2.2 = [2,0,1]) ∧
    List.Perm ((partitionMasks [2,0,1]).1 ++ (partitionMasks [2,0,1]).2.1 ++
        (partitionMasks [2,0,1]).2.2) (List.range 3) ∧
    ((partitionMasks [2,0,1]).1.Disjoint (partitionMasks [2,0,1]).2.1 ∧
     (partitionMasks [2,0,1]).1.Disjoint (partitionMasks [2,0,1]).2.2 ∧
     (partitionMasks [2,0,1]).2.1.Disjoint (partitionMasks [2,0,1]).2.2) ∧
    (partitionMasks [2,0,1]).1.length + (partitionMasks [2,0,1]).2.1.length +
        (partitionMasks [2,0,1]).2.2.length = 3 :=
  partition_masks_disjoint_cover 3 [2,0,1] (by decide)

/-! ### Trainer: early stopping
Embeds the epoch loop of `train_model_high_confidence`
(train_graphsage_high_confidence.py, lines 122-164; `train_model_improved`
of train_graphsage_improved.py lines 147-190 is the same loop with
K = 10 and patience 50 instead of K = 15 and patience 40):
  for epoch in range(epochs):
      ... optimizer step ...
      if epoch % K == 0:
          val_acc = accuracy on the validation partition
          if val_acc > best_val_acc: best_val_acc = val_acc; patience_counter = 0
          else: patience_counter += 1
          if patience_counter >= patience: break
The validation accuracy of each epoch is abstracted as a function
`valAcc : ℕ → ℚ`; only the values at checkpoint epochs are consulted. -/

/-- The early-stopping bookkeeping: best validation accuracy seen and the
count of consecutive checkpoints without improvement. -/
structure ESState where
  best : ℚ
  pat : ℕ
deriving DecidableEq

/-- One validation checkpoint: strict improvement resets the counter,
otherwise the counter grows by one. -/
def valCheckpoint (valAcc : ℕ → ℚ) (epoch : ℕ) (s : ESState) : ESState :=
  if valAcc epoch > s.best then { best := valAcc epoch, pat := 0 }
  else { best := s.best, pat := s.pat + 1 }

/-- The epoch loop, by remaining-epoch fuel: returns the number of epochs
actually executed, the final early-stopping state, and whether the loop
terminated through the early-stopping break. -/
def epochLoop (valAcc : ℕ → ℚ) (K patience : ℕ) :
    ℕ → ℕ → ESState → ℕ × ESState × Bool
  | 0, _, s => (0, s, false)
  | fuel + 1, epoch, s =>
    if epoch % K = 0 then
      let s' := valCheckpoint valAcc epoch s
      if patience ≤ s'.pat then (1, s', true)
      else
        let r := epochLoop valAcc K patience fuel (epoch + 1) s'
        (r.1 + 1, r.2)
    else
      let r := epochLoop valAcc K patience fuel (epoch + 1) s
      (r.1 + 1, r.2)

/-- The full training run: `epochs` iterations starting from epoch 0 with
`best_val_acc = 0` and `patience_counter = 0`. -/
def train_model_high_confidence (valAcc : ℕ → ℚ) (K patience epochs : ℕ) :
    ℕ × ESState × Bool :=
  epochLoop valAcc K patience epochs 0 { best := 0, pat := 0 }

/-- Helper invariant for the epoch loop: starting below the patience bound,
the loop executes at most `fuel` epochs, and if it breaks early the counter
at the break is exactly the patience bound (the loop stops at the first
checkpoint reaching it). -/
lemma epochLoop_invariant (valAcc : ℕ → ℚ) (K patience : ℕ) :
    ∀ fuel epoch s, s.pat < patience →
      (epochLoop valAcc K patience fuel epoch s).1 ≤ fuel ∧
      ((epochLoop valAcc K patience fuel epoch s).2.2 = true →
        (epochLoop valAcc K patience fuel epoch s).2.1.pat = patience) := by
  intro fuel
  induction fuel with
  | zero =>
    intro epoch s _
    simp [epochLoop]
  | succ n ih =>
    intro epoch s hs
    by_cases hk : epoch % K = 0
    · simp only [epochLoop, hk, if_true]
      by_cases hbreak : patience ≤ (valCheckpoint valAcc epoch s).pat
      · rw [if_pos hbreak]
        refine ⟨by omega, fun _ => ?_⟩
        show (valCheckpoint valAcc epoch s).pat = patience
        have hstep : (valCheckpoint valAcc epoch s).pat = 0 ∨
            (valCheckpoint valAcc epoch s).pat = s.pat + 1 := by
          unfold valCheckpoint
          by_cases himp : valAcc epoch > s.best
          · left; rw [if_pos himp]
          · right; rw [if_neg himp]
        rcases hstep with h0 | h1 <;> omega
      · rw [if_neg hbreak]
        have hlt : (valCheckpoint valAcc epoch s).pat < patience := by omega
        have := ih (epoch + 1) (valCheckpoint valAcc epoch s) hlt
        exact ⟨by omega, this.2⟩
    · simp only [epochLoop, hk, if_false]
      have := ih (epoch + 1) s hs
      exact ⟨by omega, this.2⟩

/-- The reference evolution of the early-stopping bookkeeping with the break
disabled: the state the best/patience counters reach after processing epochs
`epoch .. epoch + fuel - 1` (checkpoints included, loop exit ignored). It is
used to say, independently of the loop's own control flow, at which epoch the
no-improvement count first reaches the patience window. -/
def esRun (valAcc : ℕ → ℚ) (K : ℕ) : ℕ → ℕ → ESState → ESState
  | 0, _, s => s
  | fuel + 1, epoch, s =>
    esRun valAcc K fuel (epoch + 1)
      (if epoch % K = 0 then valCheckpoint valAcc epoch s else s)

/-- The break condition arises `j` epochs after starting from `(epoch, s)`:
epoch `epoch + j` is a validation checkpoint and processing it brings the
consecutive-no-improvement counter up to the patience window. -/
def fireFrom (valAcc : ℕ → ℚ) (K patience epoch : ℕ) (s : ESState) (j : ℕ) : Prop :=
  (epoch + j) % K = 0 ∧
  patience ≤ (valCheckpoint valAcc (epoch + j) (esRun valAcc K j epoch s)).pat

instance (valAcc : ℕ → ℚ) (K patience epoch : ℕ) (s : ESState) (j : ℕ) :
    Decidable (fireFrom valAcc K patience epoch s j) := by
  unfold fireFrom
  infer_instance

/-- The break condition of the full run from epoch 0 arises at epoch `e`:
`e` is a checkpoint whose processing brings the consecutive checkpoint count
without improvement up to the patience window. -/
def patienceExhaustedAt (valAcc : ℕ → ℚ) (K patience e : ℕ) : Prop :=
  fireFrom valAcc K patience 0 { best := 0, pat := 0 } e

instance (valAcc : ℕ → ℚ) (K patience e : ℕ) :
    Decidable (patienceExhaustedAt valAcc K patience e) := by
  unfold patienceExhaustedAt
  infer_instance

/-- Helper: unfolding `fireFrom` at distance 0. -/
lemma fireFrom_zero (valAcc : ℕ → ℚ) (K patience epoch : ℕ) (s : ESState) :
    fireFrom valAcc K patience epoch s 0 ↔
      epoch % K = 0 ∧ patience ≤ (valCheckpoint valAcc epoch s).pat := by
  unfold fireFrom
  rw [Nat.add_zero]
  rfl

/-- Helper: shifting `fireFrom` by one epoch. -/
lemma fireFrom_succ (valAcc : ℕ → ℚ) (K patience epoch : ℕ) (s : ESState) (j : ℕ) :
    fireFrom valAcc K patience epoch s (j + 1) ↔
      fireFrom valAcc K patience (epoch + 1)
        (if epoch % K = 0 then valCheckpoint valAcc epoch s else s) j := by
  unfold fireFrom
  have h1 : epoch + (j + 1) = epoch + 1 + j := by omega
  rw [h1]
  rfl

/-- Helper characterization of the epoch loop: starting below the patience
bound, the loop (i) executes at most `fuel` epochs, (ii) breaks early exactly
when the break condition arises within the budget, (iii) on an early break
stops immediately at the first epoch where the condition arises, and (iv)
without an early break executes exactly `fuel` epochs. -/
lemma epochLoop_halts_iff (valAcc : ℕ → ℚ) (K patience : ℕ) :
    ∀ fuel epoch s, s.pat < patience →
      (epochLoop valAcc K patience fuel epoch s).1 ≤ fuel ∧
      ((epochLoop valAcc K patience fuel epoch s).2.2 = true ↔
        ∃ j < fuel, fireFrom valAcc K patience epoch s j) ∧
      ((epochLoop valAcc K patience fuel epoch s).2.2 = true →
        1 ≤ (epochLoop valAcc K patience fuel epoch s).1 ∧
        fireFrom valAcc K patience epoch s
          ((epochLoop valAcc K patience fuel epoch s).1 - 1) ∧
        ∀ j < (epochLoop valAcc K patience fuel epoch s).1 - 1,
          ¬ fireFrom valAcc K patience epoch s j) ∧
      ((epochLoop valAcc K patience fuel epoch s).2.2 = false →
        (epochLoop valAcc K patience fuel epoch s).1 = fuel) := by
  intro fuel
  induction fuel with
  | zero =>
    intro epoch s _
    refine ⟨Nat.le_refl 0, ?_, ?_, fun _ => rfl⟩
    · simp [epochLoop]
    · simp [epochLoop]
  | succ fuel ih =>
    intro epoch s hs
    by_cases hk : epoch % K = 0
    · by_cases hb : patience ≤ (valCheckpoint valAcc epoch s).pat
      · -- the checkpoint at this very epoch fires the break
        have hL : epochLoop valAcc K patience (fuel + 1) epoch s =
            (1, valCheckpoint valAcc epoch s, true) := by
          simp only [epochLoop, hk, if_true]
          rw [if_pos hb]
        rw [hL]
        have hF0 : fireFrom valAcc K patience epoch s 0 :=
          (fireFrom_zero valAcc K patience epoch s).mpr ⟨hk, hb⟩
        refine ⟨by omega, ?_, ?_, ?_⟩
        · exact ⟨fun _ => ⟨0, by omega, hF0⟩, fun _ => rfl⟩
        · intro _
          exact ⟨by omega, by simpa using hF0, fun j hj => by omega⟩
        · intro hcontra
          exact absurd hcontra (by simp)
      · -- checkpoint without break: recurse with the updated state
        have hL : epochLoop valAcc K patience (fuel + 1) epoch s =
            ((epochLoop valAcc K patience fuel (epoch + 1)
                (valCheckpoint valAcc epoch s)).1 + 1,
             (epochLoop valAcc K patience fuel (epoch + 1)
                (valCheckpoint valAcc epoch s)).2) := by
          simp only [epochLoop, hk, if_true]
          rw [if_neg hb]
        have hslt : (valCheckpoint valAcc epoch s).pat < patience := by omega
        obtain ⟨ih1, ih2, ih3, ih4⟩ := ih (epoch + 1) (valCheckpoint valAcc epoch s) hslt
        have hshiftF : ∀ j, fireFrom valAcc K patience epoch s (j + 1) ↔
            fireFrom valAcc K patience (epoch + 1) (valCheckpoint valAcc epoch s) j := by
          intro j
          rw [fireFrom_succ, if_pos hk]
        have hF0 : ¬ fireFrom valAcc K patience epoch s 0 := by
          rw [fireFrom_zero]
          rintro ⟨-, hge⟩
          exact hb hge
        rw [hL]
        dsimp only
        refine ⟨by omega, ?_, ?_, ?_⟩
        · refine ih2.trans ?_
          constructor
          · rintro ⟨j, hj, hF⟩
            exact ⟨j + 1, by omega, (hshiftF j).mpr hF⟩
          · rintro ⟨j, hj, hF⟩
            cases j with
            | zero => exact absurd hF hF0
            | succ j => exact ⟨j, by omega, (hshiftF j).mp hF⟩
        · intro hstop
          obtain ⟨h1le, hfire, hmin⟩ := ih3 hstop
          refine ⟨by omega, ?_, ?_⟩
          · have heq : (epochLoop valAcc K patience fuel (epoch + 1)
                (valCheckpoint valAcc epoch s)).1 + 1 - 1 =
                ((epochLoop valAcc K patience fuel (epoch + 1)
                  (valCheckpoint valAcc epoch s)).1 - 1) + 1 := by omega
            rw [heq, hshiftF]
            exact hfire
          · intro j hj
            cases j with
            | zero => exact hF0
            | succ j =>
              intro hF
              exact hmin j (by omega) ((hshiftF j).mp hF)
        · intro hnostop
          have := ih4 hnostop
          omega
    · -- not a checkpoint epoch: recurse with the unchanged state
      have hL : epochLoop valAcc K patience (fuel + 1) epoch s =
          ((epochLoop valAcc K patience fuel (epoch + 1) s).1 + 1,
           (epochLoop valAcc K patience fuel (epoch + 1) s).2) := by
        simp only [epochLoop]
        rw [if_neg hk]
      obtain ⟨ih1, ih2, ih3, ih4⟩ := ih (epoch + 1) s hs
      have hshiftF : ∀ j, fireFrom valAcc K patience epoch s (j + 1) ↔
          fireFrom valAcc K patience (epoch + 1) s j := by
        intro j
        rw [fireFrom_succ, if_neg hk]
      have hF0 : ¬ fireFrom valAcc K patience epoch s 0 := by
        rw [fireFrom_zero]
        rintro ⟨h0, -⟩
        exact hk h0
      rw [hL]
      dsimp only
      refine ⟨by omega, ?_, ?_, ?_⟩
      · refine ih2.trans ?_
        constructor
        · rintro ⟨j, hj, hF⟩
          exact ⟨j + 1, by omega, (hshiftF j).mpr hF⟩
        · rintro ⟨j, hj, hF⟩
          cases j with
          | zero => exact absurd hF hF0
          | succ j => exact ⟨j, by omega, (hshiftF j).mp hF⟩
      · intro hstop
        obtain ⟨h1le, hfire, hmin⟩ := ih3 hstop
        refine ⟨by omega, ?_, ?_⟩
        · have heq : (epochLoop valAcc K patience fuel (epoch + 1) s).1 + 1 - 1 =
              ((epochLoop valAcc K patience fuel (epoch + 1) s).1 - 1) + 1 := by omega
          rw [heq, hshiftF]
          exact hfire
        · intro j hj
          cases j with
          | zero => exact hF0
          | succ j =>
            intro hF
            exact hmin j (by omega) ((hshiftF j).mp hF)
      · intro hnostop
        have := ih4 hnostop
        omega

/-- C5: the training loop executes at most the configured number of epochs;
it terminates through the early-stopping break exactly when, within the
epoch budget, some validation checkpoint brings the count of consecutive
checkpoints without improvement over the best validation accuracy up to the
patience window (counted in validation checkpoints, which occur every K
epochs, not in raw epochs); on such a break it stops immediately — the last
executed epoch is the first epoch where that count reaches the window, no
earlier epoch reaches it, and the counter then equals the patience window
exactly; without a break it runs all configured epochs. -/
theorem early_stopping_halts_at_patience (valAcc : ℕ → ℚ) (K patience epochs : ℕ)
    (hpat : 1 ≤ patience) :
    (train_model_high_confidence valAcc K patience epochs).1 ≤ epochs ∧
    ((train_model_high_confidence valAcc K patience epochs).2.2 = true ↔
      ∃ e < epochs, patienceExhaustedAt valAcc K patience e) ∧
    ((train_model_high_confidence valAcc K patience epochs).2.2 = true →
      1 ≤ (train_model_high_confidence valAcc K patience epochs).1 ∧
      patienceExhaustedAt valAcc K patience
        ((train_model_high_confidence valAcc K patience epochs).1 - 1) ∧
      ∀ e < (train_model_high_confidence valAcc K patience epochs).1 - 1,
        ¬ patienceExhaustedAt valAcc K patience e) ∧
    ((train_model_high_confidence valAcc K patience epochs).2.2 = false →
      (train_model_high_confidence valAcc K patience epochs).1 = epochs) ∧
    ((train_model_high_confidence valAcc K patience epochs).2.2 = true →
      (train_model_high_confidence valAcc K patience epochs).2.1.pat = patience) := by
  have h := epochLoop_halts_iff valAcc K patience epochs 0 { best := 0, pat := 0 }
    (show 0 < patience by omega)
  have h5 := epochLoop_invariant valAcc K patience epochs 0 { best := 0, pat := 0 }
    (show 0 < patience by omega)
  unfold train_model_high_confidence patienceExhaustedAt
  exact ⟨h.1, h.2.1, h.2.2.1, h.2.2.2, h5.2⟩

/-- C5 witness: a constant validation accuracy of 1 with checkpoints every 15
epochs and a patience of 2 checkpoints makes the 40-epoch run break early:
the loop stops (the break flag is set) after exactly 31 of the 40 budgeted
epochs, the break epoch 30 is the first at which the no-improvement count
reaches the window (epoch 0 improves, epochs 15 and 30 do not), no earlier
epoch reaches it, and the counter stands exactly at the patience value 2. -/
theorem early_stopping_halts_at_patience_witness :
    (train_model_high_confidence (fun _ => (1 : ℚ)) 15 2 40).2.2 = true ∧
    (train_model_high_confidence (fun _ => (1 : ℚ)) 15 2 40).1 ≤ 40 ∧
    patienceExhaustedAt (fun _ => (1 : ℚ)) 15 2
      ((train_model_high_confidence (fun _ => (1 : ℚ)) 15 2 40).1 - 1) ∧
    (∀ e < (train_model_high_confidence (fun _ => (1 : ℚ)) 15 2 40).1 - 1,
      ¬ patienceExhaustedAt (fun _ => (1 : ℚ)) 15 2 e) ∧
    (train_model_high_confidence (fun _ => (1 : ℚ)) 15 2 40).2.1.pat = 2 ∧
    (train_model_high_confidence (fun _ => (1 : ℚ)) 15 2 40).1 = 31 := by
  have h := early_stopping_halts_at_patience (fun _ => (1 : ℚ)) 15 2 40 (by omega)
  have hstop : (train_model_high_confidence (fun _ => (1 : ℚ)) 15 2 40).2.2 = true :=
    h.2.1.mpr ⟨30, by omega, by decide⟩
  obtain ⟨h1le, hfire, hmin⟩ := h.2.2.1 hstop
  exact ⟨hstop, h.1, hfire, hmin, h.2.2.2.2 hstop, by decide⟩

/-! ### Trainer of the base script: no divergence handling
Embeds `train_model` (train_graphsage.py, lines 83-123; the improved
variant's loop, lines 150-161 of train_graphsage_improved.py, likewise never
inspects the loss): every epoch performs one optimizer step unconditionally,
and `train_losses` records `loss.item()` at the epochs divisible by 10.
The per-epoch loss is abstracted as `ℕ → Option ℚ`, `none` standing for a
non-finite float (NaN/Inf). The repository defines no TrainingDivergedError
and no code path raises one, so the error type of the result is empty. -/

/-- The error the spec requires on numerical divergence. The source defines
no such exception and contains no raise site for it, so the type is
uninhabited in this embedding. -/
inductive TrainingDivergedError : Type
deriving DecidableEq

/-- Outcome of the base training loop: number of optimizer steps performed
and the recorded checkpoint losses. -/
structure BaseTrainResult where
  stepsPerformed : ℕ
  train_losses : List (Option ℚ)
deriving DecidableEq

/-- `train_model` of the base script: runs all `epochs` optimizer steps
regardless of the loss values and returns normally; the loss is only ever
recorded, never tested for finiteness. -/
def train_model (lossSeq : ℕ → Option ℚ) (epochs : ℕ) :
    Except TrainingDivergedError BaseTrainResult :=
  Except.ok
    { stepsPerformed := epochs,
      train_losses := ((List.range epochs).filter (fun e => e % 10 = 0)).map lossSeq }

/-- C6 (code bug evaluation): with a loss that is non-finite from the very
first optimization step, a 5-epoch run still performs all 5 parameter
updates, records the non-finite loss, and returns normally; no
TrainingDivergedError can ever be surfaced because no such error exists
anywhere in the source. -/
theorem trainer_ignores_nonfinite_loss :
    train_model (fun _ => none) 5 =
      Except.ok { stepsPerformed := 5, train_losses := [none] } ∧
    ∀ e : TrainingDivergedError, False := by
  refine ⟨?_, fun e => by cases e⟩
  rfl

/-! ### CLI entry guard
Embeds the data-path check of `main` (train_graphsage.py, lines 186-189;
identical in train_graphsage_improved.py, lines 276-279):
  if not os.path.exists(args.data_path):
      print(error); return
`main()` returning None makes the interpreter exit with status 0; no
`sys.exit` call and no exception is involved on this path. -/

/-- How the process run ends after the guard. -/
inductive MainExit where
  /-- the process terminated with the given exit status before loading -/
  | exitCode (code : ℕ)
  /-- the guard passed and the pipeline proceeds to load the data file -/
  | proceeded
deriving DecidableEq

/-- The guard of `main` as a function of whether the data path exists:
a missing file prints an error and returns from `main`, which ends the
process with exit status 0. -/
def mainFileGuard (dataPathExists : Bool) : MainExit :=
  if dataPathExists then MainExit.proceeded else MainExit.exitCode 0

/-- C8 counterexample: invoked with a data path that does not exist, the
process does not exit with any non-zero code — the early return makes it
exit with status 0, refuting the claimed non-zero exit. -/
theorem missing_input_exit_nonzero_refuted :
    ¬ ∃ code, mainFileGuard false = MainExit.exitCode code ∧ 0 < code := by
  rintro ⟨code, hcode, hpos⟩
  have : code = 0 := by
    have h0 : mainFileGuard false = MainExit.exitCode 0 := rfl
    rw [h0] at hcode
    exact (MainExit.exitCode.inj hcode).symm
  omega

/-- C8 amended: when the CLI entry point is invoked with a data path that
does not exist, it returns before loading anything — the pipeline does not
run — and the process exits with status 0 (zero, not non-zero). -/
theorem missing_input_exits_zero :
    mainFileGuard false = MainExit.exitCode 0 ∧
    mainFileGuard false ≠ MainExit.proceeded := by
  exact ⟨rfl, by decide⟩

/-! ### save_predictions of the base script
Embeds `save_predictions` (train_graphsage.py, lines 158-175). The function
first builds `prediction_data`, whose metadata evaluates
`torch.datetime.now().isoformat()`; the torch module (PyTorch) exposes no
top-level `datetime` attribute, so this attribute lookup raises
AttributeError before `open(output_path, 'w')` is reached. Paths are
abstracted to ℕ tokens and file contents to the stored prediction list with
its timestamp. -/

/-- The `datetime` attribute of the torch module: absent (PyTorch defines no
such attribute), so the lookup `torch.datetime` fails. -/
def torchDatetimeAttr : Option ℕ := none

/-- Errors that `save_predictions` can raise in this embedding. -/
inductive SaveError where
  /-- AttributeError: module torch has no attribute datetime -/
  | attributeError
deriving DecidableEq

/-- The flat file system: a list of (path token, written artifact). -/
structure FileSystem where
  files : List (ℕ × (List ℤ × ℕ))
deriving DecidableEq

/-- `save_predictions` of the base script: builds the prediction artifact
(metadata timestamp first, via the torch.datetime lookup) and only then
opens and writes the output file. -/
def save_predictions (fs : FileSystem) (predictions : List ℤ)
    (output_path : ℕ) : Except SaveError FileSystem :=
  match torchDatetimeAttr with
  | none => Except.error SaveError.attributeError
  | some ts => Except.ok { files := (output_path, (predictions, ts)) :: fs.files }

/-- C9: for every file system state, predictions array and output path, the
base script's save_predictions raises AttributeError (torch has no datetime
attribute) before writing anything: it never returns a file system in which
the artifact was persisted. -/
theorem save_predictions_always_raises (fs : FileSystem) (predictions : List ℤ)
    (output_path : ℕ) :
    save_predictions fs predictions output_path =
      Except.error SaveError.attributeError ∧
    ∀ fs', save_predictions fs predictions output_path ≠ Except.ok fs' := by
  refine ⟨rfl, fun fs' h => ?_⟩
  exact Except.noConfusion h

/-- C9 witness: on the empty file system with a concrete prediction vector
the call raises AttributeError and persists nothing. -/
theorem save_predictions_always_raises_witness :
    save_predictions { files := [] } [1, 0, 2] 0 =
      Except.error SaveError.attributeError ∧
    ∀ fs', save_predictions { files := [] } [1, 0, 2] 0 ≠ Except.ok fs' :=
  save_predictions_always_raises { files := [] } [1, 0, 2] 0

/-! ### save_predictions_to_db of the direct pipeline
Embeds the insert loop of `save_predictions_to_db`
(train_graphsage_direct.py, lines 284-293):
  for idx, pred in enumerate(predictions):
      INSERT ... VALUES (idx, int(pred), 0.8)
-/

/-- One row of the `graphsage_predictions` table. -/
structure PredictionRow where
  node_id : ℕ
  prediction : ℤ
  confidence : ℚ
deriving DecidableEq

/-- The rows inserted by the enumerate loop starting at index `idx`. -/
def insertRowsFrom (idx : ℕ) : List ℤ → List PredictionRow
  | [] => []
  | pred :: rest =>
    { node_id := idx, prediction := pred, confidence := 8/10 } ::
      insertRowsFrom (idx + 1) rest

/-- The full set of rows `save_predictions_to_db` inserts for a predictions
array. -/
def save_predictions_to_db (predictions : List ℤ) : List PredictionRow :=
  insertRowsFrom 0 predictions

/-- Helper: the rows produced from any start index have the constant
confidence 0.8, consecutive dense indices as node_id, and the predictions in
order. -/
lemma insertRowsFrom_spec (predictions : List ℤ) : ∀ idx,
    ((insertRowsFrom idx predictions).map PredictionRow.confidence =
      List.replicate predictions.length (8/10)) ∧
    ((insertRowsFrom idx predictions).map PredictionRow.node_id =
      List.range' idx predictions.length) ∧
    ((insertRowsFrom idx predictions).map PredictionRow.prediction = predictions) := by
  induction predictions with
  | nil => intro idx; simp [insertRowsFrom]
  | cons p rest ih =>
    intro idx
    have h := ih (idx + 1)
    simp only [insertRowsFrom, List.map_cons, List.length_cons, List.replicate,
      List.range']
    exact ⟨by rw [h.1], by rw [h.2.1], by rw [h.2.2]⟩

/-- C10: every row the direct pipeline persists carries the constant
confidence 0.8 whatever the predictions are (the softmax probabilities are
not even passed to the function), and the node_id column is exactly the
dense array index 0..n-1, not any original database node identity. -/
theorem db_rows_constant_confidence_dense_ids (predictions : List ℤ) :
    ((save_predictions_to_db predictions).map PredictionRow.confidence =
      List.replicate predictions.length (8/10)) ∧
    ((save_predictions_to_db predictions).map PredictionRow.node_id =
      List.range predictions.length) ∧
    ((save_predictions_to_db predictions).map PredictionRow.prediction =
      predictions) := by
  have h := insertRowsFrom_spec predictions 0
  unfold save_predictions_to_db
  refine ⟨h.1, ?_, h.2.2⟩
  rw [h.2.1, List.range_eq_range']

end Carthorse
